import Mathlib

/-!
Verification of the Read2Me audiobook player (src/app.js, src/document-extraction.js).

Modeling conventions:
* JavaScript strings are modeled as `List Char`.
* The JS regex `split` calls are implemented by explicit leftmost-match scanners
  (`findParaSep` for `/\n\s*\n/`, `findSentSep` for `/([.!?]+\s+)/`, `findWsSep`
  for `/\s+/`), each returning the text before the first match, the matched
  separator, and the remainder, exactly as the backtracking regex engine does.
* `isWs` models the JS `\s` class (restricted to the whitespace characters in
  the Basic Latin range plus NBSP, the ones relevant to this code).
* The narration controller (playDocument / speakParagraph /
  speakParagraphBrowser / togglePauseResume / stopReading / skipParagraph in
  src/app.js) is modeled as a small-step event system: global mutable state is
  `CtrlState`, the pending browser-event-loop continuations (in-flight
  utterance callbacks, the 50 ms inter-sentence timer, the 100 ms
  delay-then-speak continuation) are `Task`s, and backend interactions
  (speechSynthesis.speak / speechSynthesis.cancel / console.error on utterance
  error) are recorded as `Emission`s.  The environment chooses which pending
  task fires next and whether an utterance ends or errors, which models
  speech-engine callbacks arriving in any order relative to user actions.
-/

set_option linter.unusedVariables false

namespace Read2Me

/-! ## Character classes and JS string primitives -/

/-- The JS regex class `\s` (whitespace), for the characters this code meets:
space, tab, newline, carriage return, vertical tab, form feed, NBSP. -/
def isWs (c : Char) : Bool :=
  c = ' ' || c = '\t' || c = '\n' || c = '\r' || c = '\x0B' || c = '\x0C' || c = ' '

/-- The sentence-terminator class `[.!?]` from `splitIntoSentences`. -/
def isSentPunct (c : Char) : Bool :=
  c = '.' || c = '!' || c = '?'

/-- `String.prototype.trim`: strip whitespace from both ends. -/
def jsTrim (cs : List Char) : List Char :=
  ((cs.dropWhile isWs).reverse.dropWhile isWs).reverse

/-- All characters of a list that are not whitespace (used to state
"concatenation ignoring whitespace"). -/
def stripWs (cs : List Char) : List Char :=
  cs.filter (fun c => !isWs c)

/-- All characters that are neither whitespace nor sentence punctuation. -/
def stripWsPunct (cs : List Char) : List Char :=
  cs.filter (fun c => !isWs c && !isSentPunct c)

/-- Is `pat` a prefix of `cs` (Boolean, by character equality)? -/
def isPrefixL : List Char → List Char → Bool
  | [], _ => true
  | _ :: _, [] => false
  | a :: as, b :: bs => a = b && isPrefixL as bs

/-- `String.prototype.includes`: does `cs` contain `pat` as a contiguous
substring? -/
def hasSub (pat : List Char) : List Char → Bool
  | [] => isPrefixL pat []
  | c :: cs => isPrefixL pat (c :: cs) || hasSub pat cs

/-! ## The paragraph separator `/\n\s*\n/`

A match is a newline, then greedy `\s*`, backtracking so that the final
literal `\n` matches: i.e. a newline followed by the whitespace run up to and
including the last newline inside that run. -/

/-- Split a whitespace run at its last `'\n'`: returns `(w1, w2)` with
`l = w1 ++ '\n' :: w2` and no newline in `w2`, if `l` contains a newline. -/
def lastNlSplit : List Char → Option (List Char × List Char)
  | [] => none
  | c :: cs =>
    match lastNlSplit cs with
    | some (w1, w2) => some (c :: w1, w2)
    | none => if c = '\n' then some ([], cs) else none

theorem lastNlSplit_spec : ∀ (l w1 w2 : List Char),
    lastNlSplit l = some (w1, w2) → w1 ++ '\n' :: w2 = l := by
  intro l
  induction l with
  | nil => intro w1 w2 h; simp [lastNlSplit] at h
  | cons c cs ih =>
    intro w1 w2 h
    simp only [lastNlSplit] at h
    cases hrec : lastNlSplit cs with
    | some p =>
      obtain ⟨v1, v2⟩ := p
      rw [hrec] at h
      simp only [Option.some.injEq, Prod.mk.injEq] at h
      obtain ⟨h1, h2⟩ := h
      subst h1; subst h2
      simp [← ih v1 v2 hrec]
    | none =>
      rw [hrec] at h
      by_cases hc : c = '\n'
      · simp [hc] at h
        obtain ⟨h1, h2⟩ := h
        subst h1; subst h2; simp [hc]
      · simp [hc] at h

/-- Leftmost match of `/\n\s*\n/` in the input: returns
`(before, separator, after)`. -/
def findParaSep : List Char → Option (List Char × List Char × List Char)
  | [] => none
  | c :: cs =>
    if c = '\n' then
      match lastNlSplit (cs.takeWhile isWs) with
      | some (w1, w2) => some ([], (c :: w1) ++ ['\n'], w2 ++ cs.dropWhile isWs)
      | none =>
        match findParaSep cs with
        | some (b, m, a) => some (c :: b, m, a)
        | none => none
    else
      match findParaSep cs with
      | some (b, m, a) => some (c :: b, m, a)
      | none => none

theorem findParaSep_spec : ∀ (cs b m a : List Char),
    findParaSep cs = some (b, m, a) →
    b ++ m ++ a = cs ∧ 0 < m.length ∧ m.all isWs = true := by
  intro cs
  induction cs with
  | nil => intro b m a h; simp [findParaSep] at h
  | cons c cs ih =>
    intro b m a h
    simp only [findParaSep] at h
    by_cases hc : c = '\n'
    · rw [if_pos hc] at h
      cases hnl : lastNlSplit (cs.takeWhile isWs) with
      | some p =>
        obtain ⟨w1, w2⟩ := p
        rw [hnl] at h
        simp only [Option.some.injEq, Prod.mk.injEq] at h
        obtain ⟨hb, hm, ha⟩ := h
        subst hb; subst hm; subst ha; subst hc
        have hpart := lastNlSplit_spec _ _ _ hnl
        have hTD : List.takeWhile isWs cs ++ List.dropWhile isWs cs = cs :=
          List.takeWhile_append_dropWhile _ _
        refine ⟨?_, by simp, ?_⟩
        · have hmid : w1 ++ '\n' :: (w2 ++ List.dropWhile isWs cs) = cs := by
            conv_rhs => rw [← hTD, ← hpart]
            simp [List.append_assoc]
          simp only [List.nil_append, List.cons_append, List.append_assoc,
            List.singleton_append]
          rw [hmid]
        · have hw1 : ∀ x ∈ w1, isWs x = true := by
            intro x hx
            have : x ∈ cs.takeWhile isWs := by
              rw [← hpart]; exact List.mem_append.mpr (Or.inl hx)
            exact List.mem_takeWhile_imp this
          simp only [List.all_append, List.all_cons, List.all_nil,
            Bool.and_eq_true, List.all_eq_true]
          exact ⟨⟨by decide, fun x hx => hw1 x hx⟩, ⟨by decide, trivial⟩⟩
      | none =>
        rw [hnl] at h
        cases hrec : findParaSep cs with
        | some q =>
          obtain ⟨b', m', a'⟩ := q
          rw [hrec] at h
          simp only [Option.some.injEq, Prod.mk.injEq] at h
          obtain ⟨hb, hm, ha⟩ := h
          subst hb; subst hm; subst ha
          obtain ⟨hp, hl, hw⟩ := ih b' m' a' hrec
          exact ⟨by simp [← hp], hl, hw⟩
        | none => rw [hrec] at h; simp at h
    · rw [if_neg hc] at h
      cases hrec : findParaSep cs with
      | some q =>
        obtain ⟨b', m', a'⟩ := q
        rw [hrec] at h
        simp only [Option.some.injEq, Prod.mk.injEq] at h
        obtain ⟨hb, hm, ha⟩ := h
        subst hb; subst hm; subst ha
        obtain ⟨hp, hl, hw⟩ := ih b' m' a' hrec
        exact ⟨by simp [← hp], hl, hw⟩
      | none => rw [hrec] at h; simp at h

theorem findParaSep_shrink {cs b m a : List Char}
    (h : findParaSep cs = some (b, m, a)) : a.length < cs.length := by
  obtain ⟨hp, hl, _⟩ := findParaSep_spec cs b m a h
  have : cs.length = b.length + (m.length + a.length) := by
    rw [← hp]; simp [List.length_append]
  omega

/-- `text.split(/\n\s*\n/)`: the chunks between paragraph separators. -/
def paraSplitF : Nat → List Char → List (List Char)
  | 0, cs => [cs]
  | f + 1, cs =>
    match findParaSep cs with
    | none => [cs]
    | some (b, _, a) => b :: paraSplitF f a

theorem paraSplitF_irrel : ∀ (f g : Nat) (cs : List Char),
    cs.length ≤ f → cs.length ≤ g → paraSplitF f cs = paraSplitF g cs := by
  intro f
  induction f with
  | zero =>
    intro g cs hf hg
    have hcs : cs = [] := List.length_eq_zero.mp (by omega)
    subst hcs
    cases g with
    | zero => rfl
    | succ g =>
      show [([] : List Char)] = paraSplitF (g + 1) []
      simp [paraSplitF, show findParaSep [] = none from rfl]
  | succ f ih =>
    intro g cs hf hg
    cases g with
    | zero =>
      have hcs : cs = [] := List.length_eq_zero.mp (by omega)
      subst hcs
      show paraSplitF (f + 1) [] = [([] : List Char)]
      simp [paraSplitF, show findParaSep [] = none from rfl]
    | succ g =>
      cases hfind : findParaSep cs with
      | none => simp [paraSplitF, hfind]
      | some q =>
        obtain ⟨b, m, a⟩ := q
        have hshr := findParaSep_shrink hfind
        simp only [paraSplitF, hfind]
        rw [ih g a (by omega) (by omega)]

/-- `text.split(/\n\s*\n/)` (executable: fuel-based structural recursion;
`cs.length` is always enough fuel because each separator is nonempty). -/
def paraSplit (cs : List Char) : List (List Char) := paraSplitF cs.length cs

/-! ## The sentence separator `/([.!?]+\s+)/`

A match is a maximal nonempty run of `.`, `!`, `?` followed by a nonempty
(maximal) whitespace run.  `String.split` with a capturing group keeps the
separators in the result, so `sentSplit` returns the interleaved list
`[chunk, sep, chunk, sep, ..., chunk]`, as the JS code's `reduce` expects. -/

/-- Leftmost match of `/[.!?]+\s+/` in the input: returns
`(before, separator, after)`. -/
def findSentSep : List Char → Option (List Char × List Char × List Char)
  | [] => none
  | c :: cs =>
    if isSentPunct c then
      let ps := (c :: cs).takeWhile isSentPunct
      let r1 := (c :: cs).dropWhile isSentPunct
      let ws := r1.takeWhile isWs
      if ws.isEmpty then
        match findSentSep cs with
        | some (b, m, a) => some (c :: b, m, a)
        | none => none
      else some ([], ps ++ ws, r1.dropWhile isWs)
    else
      match findSentSep cs with
      | some (b, m, a) => some (c :: b, m, a)
      | none => none

theorem findSentSep_spec : ∀ (cs b m a : List Char),
    findSentSep cs = some (b, m, a) →
    b ++ m ++ a = cs ∧ 0 < m.length ∧
    m.all (fun c => isSentPunct c || isWs c) = true := by
  intro cs
  induction cs with
  | nil => intro b m a h; simp [findSentSep] at h
  | cons c cs ih =>
    intro b m a h
    simp only [findSentSep] at h
    by_cases hc : isSentPunct c
    · rw [if_pos hc] at h
      by_cases hws : (((c :: cs).dropWhile isSentPunct).takeWhile isWs).isEmpty
      · rw [if_pos hws] at h
        cases hrec : findSentSep cs with
        | some q =>
          obtain ⟨b', m', a'⟩ := q
          rw [hrec] at h
          simp only [Option.some.injEq, Prod.mk.injEq] at h
          obtain ⟨hb, hm, ha⟩ := h
          subst hb; subst hm; subst ha
          obtain ⟨hp, hl, hw⟩ := ih b' m' a' hrec
          exact ⟨by simp [← hp], hl, hw⟩
        | none => rw [hrec] at h; simp at h
      · rw [if_neg hws] at h
        simp only [Option.some.injEq, Prod.mk.injEq] at h
        obtain ⟨hb, hm, ha⟩ := h
        subst hb; subst hm; subst ha
        have hPD : ((c :: cs).takeWhile isSentPunct) ++ ((c :: cs).dropWhile isSentPunct)
            = c :: cs := List.takeWhile_append_dropWhile _ _
        have hWD : (((c :: cs).dropWhile isSentPunct).takeWhile isWs)
              ++ (((c :: cs).dropWhile isSentPunct).dropWhile isWs)
            = (c :: cs).dropWhile isSentPunct := List.takeWhile_append_dropWhile _ _
        refine ⟨?_, ?_, ?_⟩
        · simp only [List.nil_append, List.append_assoc]
          rw [hWD, hPD]
        · have : (c :: cs).takeWhile isSentPunct = c :: cs.takeWhile isSentPunct := by
            simp [List.takeWhile_cons, hc]
          simp [this]
        · simp only [List.all_append, Bool.and_eq_true, List.all_eq_true]
          constructor
          · intro x hx
            have := List.mem_takeWhile_imp hx
            simp [this]
          · intro x hx
            have := List.mem_takeWhile_imp hx
            simp [this]
    · rw [if_neg hc] at h
      cases hrec : findSentSep cs with
      | some q =>
        obtain ⟨b', m', a'⟩ := q
        rw [hrec] at h
        simp only [Option.some.injEq, Prod.mk.injEq] at h
        obtain ⟨hb, hm, ha⟩ := h
        subst hb; subst hm; subst ha
        obtain ⟨hp, hl, hw⟩ := ih b' m' a' hrec
        exact ⟨by simp [← hp], hl, hw⟩
      | none => rw [hrec] at h; simp at h

theorem findSentSep_shrink {cs b m a : List Char}
    (h : findSentSep cs = some (b, m, a)) : a.length < cs.length := by
  obtain ⟨hp, hl, _⟩ := findSentSep_spec cs b m a h
  have : cs.length = b.length + (m.length + a.length) := by
    rw [← hp]; simp [List.length_append]
  omega

/-- `text.split(/([.!?]+\s+)/)`: chunks interleaved with the captured
separators (chunks at even positions, separators at odd positions). -/
def sentSplitF : Nat → List Char → List (List Char)
  | 0, cs => [cs]
  | f + 1, cs =>
    match findSentSep cs with
    | none => [cs]
    | some (b, m, a) => b :: m :: sentSplitF f a

theorem sentSplitF_irrel : ∀ (f g : Nat) (cs : List Char),
    cs.length ≤ f → cs.length ≤ g → sentSplitF f cs = sentSplitF g cs := by
  intro f
  induction f with
  | zero =>
    intro g cs hf hg
    have hcs : cs = [] := List.length_eq_zero.mp (by omega)
    subst hcs
    cases g with
    | zero => rfl
    | succ g =>
      show [([] : List Char)] = sentSplitF (g + 1) []
      simp [sentSplitF, show findSentSep [] = none from rfl]
  | succ f ih =>
    intro g cs hf hg
    cases g with
    | zero =>
      have hcs : cs = [] := List.length_eq_zero.mp (by omega)
      subst hcs
      show sentSplitF (f + 1) [] = [([] : List Char)]
      simp [sentSplitF, show findSentSep [] = none from rfl]
    | succ g =>
      cases hfind : findSentSep cs with
      | none => simp [sentSplitF, hfind]
      | some q =>
        obtain ⟨b, m, a⟩ := q
        have hshr := findSentSep_shrink hfind
        simp only [sentSplitF, hfind]
        rw [ih g a (by omega) (by omega)]

/-- `text.split(/([.!?]+\s+)/)`: chunks interleaved with the captured
separators (executable, fuel-based; `cs.length` is always enough fuel). -/
def sentSplit (cs : List Char) : List (List Char) := sentSplitF cs.length cs

/-- The JS `reduce` in `splitIntoSentences`: walk the interleaved
chunk/separator list; for each chunk whose trim is truthy (nonempty), push
the chunk concatenated with its following separator (or `''` at the end),
trimmed.  Whitespace-only chunks are skipped together with the separator
that follows them. -/
def sentReduce : List (List Char) → List (List Char)
  | [] => []
  | [c] => if jsTrim c = [] then [] else [jsTrim c]
  | c :: p :: rest =>
    (if jsTrim c = [] then [] else [jsTrim (c ++ p)]) ++ sentReduce rest

/-- `splitIntoSentences` from src/app.js (lines 220-234): split on sentence
boundaries, re-attach each separator to its sentence, drop empties, and fall
back to the whole text when no sentence was produced. -/
def splitIntoSentences (text : List Char) : List (List Char) :=
  let sentences := (sentReduce (sentSplit text)).filter (fun s => s.length > 0)
  if sentences.length > 0 then sentences else [text]

/-! ## `/\s+/` (word counting) -/

/-- Leftmost match of `/\s+/`: returns `(before, separator, after)`. -/
def findWsSep : List Char → Option (List Char × List Char × List Char)
  | [] => none
  | c :: cs =>
    if isWs c then some ([], (c :: cs).takeWhile isWs, (c :: cs).dropWhile isWs)
    else
      match findWsSep cs with
      | some (b, m, a) => some (c :: b, m, a)
      | none => none

theorem findWsSep_spec : ∀ (cs b m a : List Char),
    findWsSep cs = some (b, m, a) → b ++ m ++ a = cs ∧ 0 < m.length := by
  intro cs
  induction cs with
  | nil => intro b m a h; simp [findWsSep] at h
  | cons c cs ih =>
    intro b m a h
    simp only [findWsSep] at h
    by_cases hc : isWs c
    · rw [if_pos hc] at h
      simp only [Option.some.injEq, Prod.mk.injEq] at h
      obtain ⟨hb, hm, ha⟩ := h
      subst hb; subst hm; subst ha
      refine ⟨by simp [List.takeWhile_append_dropWhile], ?_⟩
      have : (c :: cs).takeWhile isWs = c :: cs.takeWhile isWs := by
        simp [List.takeWhile_cons, hc]
      simp [this]
    · rw [if_neg hc] at h
      cases hrec : findWsSep cs with
      | some q =>
        obtain ⟨b', m', a'⟩ := q
        rw [hrec] at h
        simp only [Option.some.injEq, Prod.mk.injEq] at h
        obtain ⟨hb, hm, ha⟩ := h
        subst hb; subst hm; subst ha
        obtain ⟨hp, hl⟩ := ih b' m' a' hrec
        exact ⟨by simp [← hp], hl⟩
      | none => rw [hrec] at h; simp at h

theorem findWsSep_shrink {cs b m a : List Char}
    (h : findWsSep cs = some (b, m, a)) : a.length < cs.length := by
  obtain ⟨hp, hl⟩ := findWsSep_spec cs b m a h
  have : cs.length = b.length + (m.length + a.length) := by
    rw [← hp]; simp [List.length_append]
  omega

/-- `text.split(/\s+/)`: chunks between whitespace runs (empty chunks kept,
as JS does). -/
def wsSplitF : Nat → List Char → List (List Char)
  | 0, cs => [cs]
  | f + 1, cs =>
    match findWsSep cs with
    | none => [cs]
    | some (b, _, a) => b :: wsSplitF f a

/-- `text.split(/\s+/)` (executable, fuel-based; `cs.length` is always
enough fuel because each separator is nonempty). -/
def wsSplit (cs : List Char) : List (List Char) := wsSplitF cs.length cs

/-! ## Paragraph segmentation -/

/-- A paragraph as built by `splitIntoParagraphs` (src/app.js lines 201-218):
1-based ordinal, trimmed text, sentence list, word count. -/
structure Paragraph where
  number : Nat
  text : List Char
  sentences : List (List Char)
  wordCount : Nat
deriving DecidableEq

/-- `splitIntoParagraphs` from src/app.js (lines 201-218): split on blank
lines, trim, drop empty chunks, and build a `Paragraph` per chunk. -/
def splitIntoParagraphs (text : List Char) : List Paragraph :=
  let paraTexts := ((paraSplit text).map jsTrim).filter (fun p => p.length > 0)
  paraTexts.enum.map (fun pair =>
    { number := pair.1 + 1
      text := pair.2
      sentences := splitIntoSentences pair.2
      wordCount := (wsSplit pair.2).length })

/-! ## Language detection (src/app.js lines 22-52) -/

/-- ASCII lowercasing; models `String.prototype.toLowerCase` on the
characters that can match the keyword lists below (the only non-ASCII
keyword character, the u-umlaut, is already lowercase in the keyword). -/
def jsLower (c : Char) : Char := c.toLower

def dutchWords : List (List Char) :=
  ["het", "van", "een", "de", "en", "is", "zijn", "voor", "met", "op",
   "aan", "worden"].map String.toList

def englishWords : List (List Char) :=
  ["the", "and", "is", "in", "to", "of", "for", "with", "on", "that",
   "this", "are"].map String.toList

def germanWords : List (List Char) :=
  ["der", "die", "das", "und", "ist", "für", "mit", "auf", "werden",
   "sich"].map String.toList

def frenchWords : List (List Char) :=
  ["le", "la", "les", "de", "un", "une", "est", "pour", "dans", "avec",
   "sur"].map String.toList

/-- `words.filter(word => sample.includes(' ' + word + ' ')).length` over the
lowercased first 1000 characters. -/
def keywordScore (ws : List (List Char)) (text : List Char) : Nat :=
  let sample := (text.take 1000).map jsLower
  (ws.filter (fun w => hasSub (' ' :: (w ++ [' '])) sample)).length

/-- Stable insertion into a descending-by-score list: an element moves past
`y` only when `y`'s score is strictly smaller, so equal scores keep insertion
order.  This reproduces the (required-stable, ES2019) JS
`Array.prototype.sort` with comparator `(a, b) => b[1] - a[1]`. -/
def insertDesc (x : List Char × Nat) : List (List Char × Nat) → List (List Char × Nat)
  | [] => [x]
  | y :: ys => if y.2 > x.2 then y :: insertDesc x ys else x :: y :: ys

def sortDesc : List (List Char × Nat) → List (List Char × Nat)
  | [] => []
  | x :: xs => insertDesc x (sortDesc xs)

/-- `Object.entries(scores).sort((a,b) => b[1]-a[1])[0][0]` (the `[]` default
is unreachable: the score table always has four entries). -/
def pickTop : List (List Char × Nat) → List Char
  | [] => []
  | e :: _ => e.1

/-- `detectLanguage` from src/app.js (lines 22-52). -/
def detectLanguage (text : List Char) : List Char :=
  pickTop (sortDesc
    [("nl-NL".toList, keywordScore dutchWords text),
     ("en-US".toList, keywordScore englishWords text),
     ("de-DE".toList, keywordScore germanWords text),
     ("fr-FR".toList, keywordScore frenchWords text)])

/-! ## Document validation (src/document-extraction.js lines 131-160, and the
UI ingestion check in processFile, src/app.js lines 165-168) -/

/-- The three `{ valid: false, error: ... }` branches of `validateDocument`. -/
inductive ValidationError
  | emptyDoc
  | tooLong
  | tooShort
deriving DecidableEq

def MAX_TEXT_LENGTH : Nat := 100000

/-- `validateDocument` from src/document-extraction.js: `none` models
`{ valid: true }`, `some e` the corresponding error object (whose message
string we do not model).  The JS guard `!text` (empty string is falsy) is the
`text.length = 0` disjunct. -/
def validateDocument (text : List Char) : Option ValidationError :=
  if text.length = 0 ∨ (jsTrim text).length = 0 then some .emptyDoc
  else if text.length > MAX_TEXT_LENGTH then some .tooLong
  else if text.length < 10 then some .tooShort
  else none

/-- The UI ingestion check in `processFile` (src/app.js lines 165-168):
`if (!text || text.trim().length < 100)` rejects the file. -/
def processFileAccepts (text : List Char) : Bool :=
  !(decide (text.length = 0) || decide ((jsTrim text).length < 100))

/-! ## Narration controller (browser backend path of src/app.js)

Global mutable state (`isPlaying`, `isPaused`, `currentParagraphIndex`,
`currentSentenceIndex`, and the IndexedDB `positions` record written by
`saveReadingPosition` / deleted by `clearReadingPosition`) is `CtrlState`.
A loaded document's paragraphs are a fixed `List Paragraph` parameter.

Suspended continuations of the event loop are `NTask`s:
* `NTask.utter p s` — an utterance for sentence `s` of paragraph `p` is in
  flight inside a `speakParagraphBrowser` promise whose closure-local
  `sentencesSpoken` is `s`; the environment eventually delivers `onend` or
  `onerror` (`UtterEnv`).  `speechSynthesis.cancel()` does not remove the
  task: the engine still fires the callback later, which is exactly the stale
  callback situation.  The `hasStarted`/`hasEnded`/`isSpeaking` guards in the
  source only deduplicate callbacks of one utterance, so each utterance is
  modeled as firing exactly once.
* `NTask.gap p s` — the 50 ms `setTimeout(() => speakNextSentence(), 50)`
  continuation with closure-local `sentencesSpoken = s`.
* `NTask.delayedSpeak` — the 100 ms delay in `playDocument`/`skipParagraph`
  followed by `speakParagraph(currentParagraphIndex)` (the global index is
  read when the continuation runs).

Observable backend interactions are `Emission`s: `speechSynthesis.cancel()`
(also the Flutter `ttsStop` position in the code), `speechSynthesis.speak`
of a given sentence, and the `console.error` in `utterance.onerror`.
`speechSynthesis.pause()/resume()` are engine-side and change no controller
state; they are not recorded. -/

structure CtrlState where
  isPlaying : Bool
  isPaused : Bool
  currentParagraphIndex : Nat
  currentSentenceIndex : Nat
  savedPosition : Option Nat
deriving DecidableEq

inductive Emission
  | cancel
  | speak (p s : Nat) (text : List Char)
  | errorLog
deriving DecidableEq

inductive NTask
  | utter (p s : Nat)
  | gap (p s : Nat)
  | delayedSpeak
deriving DecidableEq

inductive UtterEnv
  | ended
  | errored
deriving DecidableEq

/-- Result of running one synchronous stretch of controller code: the new
global state, the continuations it registered, and the backend calls it made
(in order). -/
abbrev COut := CtrlState × List NTask × List Emission

/-- Number of sentences of paragraph `p` (`paragraph.sentences.length`). -/
def sentCount (paras : List Paragraph) (p : Nat) : Nat :=
  ((paras.getD p ⟨0, [], [], 0⟩).sentences).length

/-- Text of sentence `s` of paragraph `p` (`paragraph.sentences[i]`). -/
def sentText (paras : List Paragraph) (p s : Nat) : List Char :=
  ((paras.getD p ⟨0, [], [], 0⟩).sentences).getD s []

/-- The state `stopReading` (src/app.js lines 507-529) leaves behind:
not playing, not paused, both indices 0, persisted position cleared. -/
def stoppedState : CtrlState :=
  { isPlaying := false, isPaused := false, currentParagraphIndex := 0,
    currentSentenceIndex := 0, savedPosition := none }

/-- `stopReading` (src/app.js lines 507-529): reset flags and indices, cancel
the backend, clear the persisted position (the IndexedDB delete succeeds even
when no record exists, so this is total).  The argument state is ignored:
every field is overwritten. -/
def stopReading (st : CtrlState) : COut :=
  (stoppedState, [], [.cancel])

/-- `speakParagraph` (src/app.js lines 290-325) together with the start of
`speakParagraphBrowser` (lines 327-432): past the end it runs `stopReading`;
not playing or paused it returns; otherwise it sets
`currentParagraphIndex := p` and `speakNextSentence` (closure counter 0)
issues the utterance for sentence 0.  For a zero-sentence paragraph the
promise resolves synchronously and the `if (isPlaying && !isPaused)`
continuation recurses on `p + 1` (this cannot arise from segmented
documents, whose paragraphs always have a sentence). -/
def speakParagraphF (paras : List Paragraph) : Nat → CtrlState → Nat → COut
  | 0, st, _ => (st, [], [])
  | f + 1, st, p =>
    if paras.length ≤ p then stopReading st
    else if !st.isPlaying || st.isPaused then (st, [], [])
    else
      let st' := { st with currentParagraphIndex := p }
      if sentCount paras p = 0 then speakParagraphF paras f st' (p + 1)
      else (st', [.utter p 0], [.speak p 0 (sentText paras p 0)])

theorem speakParagraphF_irrel (paras : List Paragraph) : ∀ (f g : Nat)
    (st : CtrlState) (p : Nat), paras.length < f + p → 0 < f →
    paras.length < g + p → 0 < g →
    speakParagraphF paras f st p = speakParagraphF paras g st p := by
  intro f
  induction f with
  | zero => intro g st p h1 h2; omega
  | succ f ih =>
    intro g st p h1 h2 h3 h4
    cases g with
    | zero => omega
    | succ g =>
      by_cases hend : paras.length ≤ p
      · simp [speakParagraphF, hend]
      · by_cases hguard : (!st.isPlaying || st.isPaused) = true
        · simp [speakParagraphF, hend, hguard]
        · by_cases hcnt : sentCount paras p = 0
          · simp only [speakParagraphF, if_neg hend, hguard, if_false, hcnt,
              if_true, if_pos]
            exact ih g _ (p + 1) (by omega) (by omega) (by omega) (by omega)
          · simp [speakParagraphF, hend, hguard, hcnt]

def speakParagraph (paras : List Paragraph) (st : CtrlState) (p : Nat) : COut :=
  speakParagraphF paras (paras.length + 1) st p

/-- The `await speakParagraphBrowser(...)` continuation in `speakParagraph`
(src/app.js lines 321-325): when the paragraph promise resolves,
`if (isPlaying && !isPaused) await speakParagraph(index + 1)`. -/
def contAfter (paras : List Paragraph) (st : CtrlState) (p : Nat) : COut :=
  if st.isPlaying && !st.isPaused then speakParagraph paras st (p + 1)
  else (st, [], [])

/-- `speakNextSentence` (src/app.js lines 342-431) entered from the 50 ms
timer with closure-local `sentencesSpoken = s`: done/stopped/paused resolves
the paragraph promise, otherwise the next utterance is issued.  Note it
touches neither global index. -/
def fireGap (paras : List Paragraph) (st : CtrlState) (p s : Nat) : COut :=
  if s ≥ sentCount paras p || !st.isPlaying || st.isPaused then
    contAfter paras st p
  else (st, [.utter p s], [.speak p s (sentText paras p s)])

/-- Delivery of the utterance outcome (src/app.js lines 409-426):
`onend` bumps the closure counter and schedules the 50 ms timer;
`onerror` logs and resolves the paragraph promise immediately. -/
def fireUtter (paras : List Paragraph) (st : CtrlState) (p s : Nat) :
    UtterEnv → COut
  | .ended => (st, [.gap p (s + 1)], [])
  | .errored =>
    let out := contAfter paras st p
    (out.1, out.2.1, .errorLog :: out.2.2)

/-- The 100 ms delayed continuation of `playDocument`/`skipParagraph`:
`await speakParagraph(currentParagraphIndex)` reads the global index at fire
time. -/
def fireDelayed (paras : List Paragraph) (st : CtrlState) : COut :=
  speakParagraph paras st st.currentParagraphIndex

def fireNTask (paras : List Paragraph) (st : CtrlState) :
    NTask → UtterEnv → COut
  | .utter p s, env => fireUtter paras st p s env
  | .gap p s, _ => fireGap paras st p s
  | .delayedSpeak, _ => fireDelayed paras st

/-- `playDocument` (src/app.js lines 254-288): no-op without paragraphs;
otherwise cancel existing speech, reset both indices **unless paused**, set
playing, and schedule the delayed `speakParagraph(currentParagraphIndex)`. -/
def playDocument (paras : List Paragraph) (st : CtrlState) : COut :=
  if paras.length = 0 then (st, [], [])
  else
    let st1 := if !st.isPaused then
        { st with currentParagraphIndex := 0, currentSentenceIndex := 0 }
      else st
    let st2 := { st1 with isPlaying := true, isPaused := false }
    (st2, [.delayedSpeak], [.cancel])

/-- `togglePauseResume` (src/app.js lines 470-505).  Resume: clear
`isPaused` **then** call `playDocument` (so `playDocument` sees
`isPaused = false`).  Pause: set `isPaused`, leave the engine to freeze the
in-flight utterance, and `saveReadingPosition` persists the current
paragraph index. -/
def togglePauseResume (paras : List Paragraph) (st : CtrlState) : COut :=
  if st.isPaused then
    playDocument paras { st with isPaused := false }
  else
    ({ st with isPaused := true,
               savedPosition := some st.currentParagraphIndex }, [], [])

/-- `skipParagraph` (src/app.js lines 532-568): no-op unless playing with a
document; cancel current speech; compute `newIndex = current + direction`;
clamp negatives to 0; at or past the end run `stopReading` and return
without scheduling anything; otherwise set the paragraph index, reset the
sentence index, and schedule the delayed `speakParagraph`. -/
def skipParagraph (paras : List Paragraph) (st : CtrlState) (dir : Int) : COut :=
  if !st.isPlaying || paras.length = 0 then (st, [], [])
  else
    let newIndex : Int := (st.currentParagraphIndex : Int) + dir
    if newIndex < 0 then
      ({ st with currentParagraphIndex := 0, currentSentenceIndex := 0 },
       [.delayedSpeak], [.cancel])
    else if newIndex ≥ (paras.length : Int) then
      let out := stopReading st
      (out.1, out.2.1, .cancel :: out.2.2)
    else
      ({ st with currentParagraphIndex := newIndex.toNat,
                 currentSentenceIndex := 0 },
       [.delayedSpeak], [.cancel])

/-! ### Traces: interleaving user actions and environment-chosen callback
deliveries -/

structure Config where
  st : CtrlState
  tasks : List NTask
  trace : List Emission
deriving DecidableEq

/-- One step: a user action (its new continuations are appended to the
pending queue), or the environment firing the pending task at position `i`
(for an utterance, the environment also chooses end vs error). -/
inductive Act
  | play
  | toggle
  | stop
  | skip (dir : Int)
  | fire (i : Nat) (env : UtterEnv)

def applyUser (cfg : Config) (out : COut) : Config :=
  { st := out.1, tasks := cfg.tasks ++ out.2.1, trace := cfg.trace ++ out.2.2 }

def stepAct (paras : List Paragraph) (cfg : Config) : Act → Config
  | .play => applyUser cfg (playDocument paras cfg.st)
  | .toggle => applyUser cfg (togglePauseResume paras cfg.st)
  | .stop => applyUser cfg (stopReading cfg.st)
  | .skip d => applyUser cfg (skipParagraph paras cfg.st d)
  | .fire i env =>
    match cfg.tasks.get? i with
    | none => cfg
    | some t =>
      let out := fireNTask paras cfg.st t env
      { st := out.1, tasks := cfg.tasks.eraseIdx i ++ out.2.1,
        trace := cfg.trace ++ out.2.2 }

def runActs (paras : List Paragraph) (cfg : Config) : List Act → Config
  | [] => cfg
  | a :: rest => runActs paras (stepAct paras cfg a) rest

/-- The configuration before any playback: idle state, no pending
continuations, empty trace. -/
def initConfig : Config := ⟨stoppedState, [], []⟩

/-! ## Supporting lemmas -/

theorem paraSplit_eq_none {cs : List Char} (h : findParaSep cs = none) :
    paraSplit cs = [cs] := by
  unfold paraSplit
  cases hl : cs.length with
  | zero => rfl
  | succ n => simp [paraSplitF, h]

theorem paraSplit_eq_some {cs b m a : List Char}
    (h : findParaSep cs = some (b, m, a)) : paraSplit cs = b :: paraSplit a := by
  have hshr := findParaSep_shrink h
  unfold paraSplit
  cases hl : cs.length with
  | zero => omega
  | succ n =>
    simp only [paraSplitF, h]
    congr 1
    exact paraSplitF_irrel n a.length a (by omega) le_rfl

theorem sentSplit_eq_none {cs : List Char} (h : findSentSep cs = none) :
    sentSplit cs = [cs] := by
  unfold sentSplit
  cases hl : cs.length with
  | zero => rfl
  | succ n => simp [sentSplitF, h]

theorem sentSplit_eq_some {cs b m a : List Char}
    (h : findSentSep cs = some (b, m, a)) :
    sentSplit cs = b :: m :: sentSplit a := by
  have hshr := findSentSep_shrink h
  unfold sentSplit
  cases hl : cs.length with
  | zero => omega
  | succ n =>
    simp only [sentSplitF, h]
    congr 1
    congr 1
    exact sentSplitF_irrel n a.length a (by omega) le_rfl

theorem speakParagraph_eq (paras : List Paragraph) (st : CtrlState) (p : Nat) :
    speakParagraph paras st p =
      if paras.length ≤ p then stopReading st
      else if !st.isPlaying || st.isPaused then (st, [], [])
      else
        let st' := { st with currentParagraphIndex := p }
        if sentCount paras p = 0 then speakParagraph paras st' (p + 1)
        else (st', [.utter p 0], [.speak p 0 (sentText paras p 0)]) := by
  show speakParagraphF paras (paras.length + 1) st p = _
  by_cases hend : paras.length ≤ p
  · simp [speakParagraphF, hend]
  · by_cases hguard : (!st.isPlaying || st.isPaused) = true
    · simp [speakParagraphF, hend, hguard]
    · by_cases hcnt : sentCount paras p = 0
      · simp only [speakParagraphF, if_neg hend, hguard, Bool.false_eq_true,
          if_false, hcnt, if_true, if_pos]
        exact speakParagraphF_irrel paras paras.length (paras.length + 1) _
          (p + 1) (by omega) (by omega) (by omega) (by omega)
      · simp [speakParagraphF, hend, hguard, hcnt]

/-- Dropping a leading whitespace run does not change the sublist of
characters selected by a predicate that rejects whitespace. -/
theorem filter_dropWhile_ws (q : Char → Bool)
    (hq : ∀ c, isWs c = true → q c = false) (l : List Char) :
    (l.dropWhile isWs).filter q = l.filter q := by
  conv_rhs => rw [← List.takeWhile_append_dropWhile (p := isWs) (l := l)]
  rw [List.filter_append]
  have h0 : (l.takeWhile isWs).filter q = [] := by
    rw [List.filter_eq_nil_iff]
    intro a ha
    simp [hq a (List.mem_takeWhile_imp ha)]
  rw [h0, List.nil_append]

/-- Trimming does not change the sublist of characters selected by a
predicate that rejects whitespace. -/
theorem filter_jsTrim (q : Char → Bool)
    (hq : ∀ c, isWs c = true → q c = false) (l : List Char) :
    (jsTrim l).filter q = l.filter q := by
  unfold jsTrim
  rw [List.filter_reverse, filter_dropWhile_ws q hq, List.filter_reverse,
    List.reverse_reverse, filter_dropWhile_ws q hq]

theorem jsTrim_eq_nil_iff (l : List Char) : jsTrim l = [] ↔ l.all isWs = true := by
  constructor
  · intro h
    have hs : l.filter (fun c => !isWs c) = [] := by
      rw [← filter_jsTrim (fun c => !isWs c) (fun c hc => by simp [hc]) l, h,
        List.filter_nil]
    rw [List.all_eq_true]
    intro a ha
    have := (List.filter_eq_nil_iff.mp hs) a ha
    simpa using this
  · intro h
    have h1 : l.dropWhile isWs = [] :=
      List.dropWhile_eq_nil_iff.mpr (fun x hx => (List.all_eq_true.mp h) x hx)
    simp [jsTrim, h1]

theorem stripWsPunct_append (l l' : List Char) :
    stripWsPunct (l ++ l') = stripWsPunct l ++ stripWsPunct l' :=
  List.filter_append _ _

theorem stripWsPunct_jsTrim (l : List Char) :
    stripWsPunct (jsTrim l) = stripWsPunct l :=
  filter_jsTrim _ (fun c hc => by simp [hc]) l

theorem stripWsPunct_of_all_ws {l : List Char} (h : l.all isWs = true) :
    stripWsPunct l = [] := by
  rw [stripWsPunct, List.filter_eq_nil_iff]
  intro a ha
  simp [List.all_eq_true.mp h a ha]

theorem stripWsPunct_of_sep {m : List Char}
    (hm : m.all (fun c => isSentPunct c || isWs c) = true) :
    stripWsPunct m = [] := by
  rw [stripWsPunct, List.filter_eq_nil_iff]
  intro a ha
  have h := List.all_eq_true.mp hm a ha
  simp only [Bool.or_eq_true] at h
  rcases h with h | h <;> simp [h]

/-- The chunks produced by the paragraph split are all whitespace exactly
when the whole input is (separators consist of whitespace only, and the
split is a partition). -/
theorem paraSplit_ws_iff (cs : List Char) :
    (∀ ch ∈ paraSplit cs, ch.all isWs = true) ↔ cs.all isWs = true := by
  suffices h : ∀ (n : Nat) (cs : List Char), cs.length ≤ n →
      ((∀ ch ∈ paraSplit cs, ch.all isWs = true) ↔ cs.all isWs = true) from
    h cs.length cs le_rfl
  intro n
  induction n with
  | zero =>
    intro cs hlen
    cases h : findParaSep cs with
    | none => rw [paraSplit_eq_none h]; simp
    | some q =>
      obtain ⟨b, m, a⟩ := q
      have := findParaSep_shrink h
      omega
  | succ n ih =>
    intro cs hlen
    cases h : findParaSep cs with
    | none => rw [paraSplit_eq_none h]; simp
    | some q =>
      obtain ⟨b, m, a⟩ := q
      obtain ⟨hp, hl, hw⟩ := findParaSep_spec cs b m a h
      have hshr := findParaSep_shrink h
      have iha := ih a (by omega)
      rw [paraSplit_eq_some h]
      constructor
      · intro hall
        rw [← hp]
        simp only [List.all_append, Bool.and_eq_true]
        refine ⟨⟨hall b (by simp), hw⟩, ?_⟩
        exact iha.mp (fun ch hch => hall ch (by simp [hch]))
      · intro hall ch hch
        rw [← hp] at hall
        simp only [List.all_append, Bool.and_eq_true] at hall
        rcases List.mem_cons.mp hch with h1 | h2
        · rw [h1]; exact hall.1.1
        · exact (iha.mpr hall.2) ch h2

/-- The fallback in `splitIntoSentences` guarantees a nonempty sentence
list for every input. -/
theorem splitIntoSentences_ne_nil (t : List Char) : splitIntoSentences t ≠ [] := by
  unfold splitIntoSentences
  by_cases h : ((sentReduce (sentSplit t)).filter (fun s => s.length > 0)).length > 0
  · rw [if_pos h]
    exact List.ne_nil_of_length_pos h
  · rw [if_neg h]
    simp

/-- Flattening is unchanged by dropping empty lists. -/
theorem flatten_filter_ne_nil (l : List (List Char)) :
    (l.filter (fun s => s.length > 0)).flatten = l.flatten := by
  induction l with
  | nil => rfl
  | cons x xs ih =>
    by_cases hx : x.length > 0
    · simp [List.filter_cons, hx, ih]
    · have hx0 : x = [] := by
        cases x with
        | nil => rfl
        | cons a as => simp at hx
      simp [List.filter_cons, hx, hx0, ih]

/-- Core of the (amended) round-trip property: modulo whitespace and the
sentence-terminator characters, the concatenation of what the JS `reduce`
produces equals the input. -/
theorem stripWsPunct_sentReduce (cs : List Char) :
    stripWsPunct (sentReduce (sentSplit cs)).flatten = stripWsPunct cs := by
  suffices h : ∀ (n : Nat) (cs : List Char), cs.length ≤ n →
      stripWsPunct (sentReduce (sentSplit cs)).flatten = stripWsPunct cs from
    h cs.length cs le_rfl
  intro n
  induction n with
  | zero =>
    intro cs hlen
    cases h : findSentSep cs with
    | none =>
      rw [sentSplit_eq_none h]
      simp only [sentReduce]
      by_cases ht : jsTrim cs = []
      · rw [if_pos ht]
        rw [stripWsPunct_of_all_ws ((jsTrim_eq_nil_iff cs).mp ht)]
        rfl
      · rw [if_neg ht]
        simp only [List.flatten_cons, List.flatten_nil, List.append_nil]
        exact stripWsPunct_jsTrim cs
    | some q =>
      obtain ⟨b, m, a⟩ := q
      have := findSentSep_shrink h
      omega
  | succ n ih =>
    intro cs hlen
    cases h : findSentSep cs with
    | none =>
      rw [sentSplit_eq_none h]
      simp only [sentReduce]
      by_cases ht : jsTrim cs = []
      · rw [if_pos ht]
        rw [stripWsPunct_of_all_ws ((jsTrim_eq_nil_iff cs).mp ht)]
        rfl
      · rw [if_neg ht]
        simp only [List.flatten_cons, List.flatten_nil, List.append_nil]
        exact stripWsPunct_jsTrim cs
    | some q =>
      obtain ⟨b, m, a⟩ := q
      obtain ⟨hp, hl, hw⟩ := findSentSep_spec cs b m a h
      have hshr := findSentSep_shrink h
      have iha := ih a (by omega)
      rw [sentSplit_eq_some h]
      simp only [sentReduce]
      by_cases ht : jsTrim b = []
      · rw [if_pos ht]
        simp only [List.nil_append]
        rw [iha]
        conv_rhs => rw [← hp]
        rw [stripWsPunct_append, stripWsPunct_append,
          stripWsPunct_of_all_ws ((jsTrim_eq_nil_iff b).mp ht),
          stripWsPunct_of_sep hw]
        simp
      · rw [if_neg ht]
        simp only [List.cons_append, List.nil_append, List.flatten_cons]
        rw [stripWsPunct_append, stripWsPunct_jsTrim, iha]
        conv_rhs => rw [← hp]
        rw [stripWsPunct_append, stripWsPunct_append, stripWsPunct_append]

/-- Modulo whitespace and terminator characters, `splitIntoSentences` is a
partition of its input. -/
theorem stripWsPunct_splitIntoSentences (t : List Char) :
    stripWsPunct (splitIntoSentences t).flatten = stripWsPunct t := by
  unfold splitIntoSentences
  by_cases h : ((sentReduce (sentSplit t)).filter (fun s => s.length > 0)).length > 0
  · rw [if_pos h, flatten_filter_ne_nil]
    exact stripWsPunct_sentReduce t
  · rw [if_neg h]
    simp

/-! ## Claim theorems -/

/-- C5: `splitIntoParagraphs` is pure, deterministic and total (it is a Lean
function); every input containing a non-whitespace character yields at least
one `Paragraph`, each of which has at least one sentence (the
`splitIntoSentences` fallback); every empty or all-whitespace input yields
`[]` without error. -/
theorem C5_segmenter_total (s : List Char) :
    (s.all isWs = true → splitIntoParagraphs s = []) ∧
    (s.all isWs = false →
      splitIntoParagraphs s ≠ [] ∧
      ∀ p ∈ splitIntoParagraphs s, p.sentences ≠ []) := by
  constructor
  · intro h
    have hfil : ((paraSplit s).map jsTrim).filter (fun p => p.length > 0) = [] := by
      rw [List.filter_eq_nil_iff]
      intro a ha
      rcases List.mem_map.mp ha with ⟨ch, hch, rfl⟩
      have hcw : ch.all isWs = true := (paraSplit_ws_iff s).mpr h ch hch
      have ht : jsTrim ch = [] := (jsTrim_eq_nil_iff ch).mpr hcw
      simp [ht]
    unfold splitIntoParagraphs
    rw [hfil]
    rfl
  · intro h
    have hsent : ∀ p ∈ splitIntoParagraphs s, p.sentences ≠ [] := by
      intro p hp
      unfold splitIntoParagraphs at hp
      rcases List.mem_map.mp hp with ⟨pair, hpair, rfl⟩
      exact splitIntoSentences_ne_nil pair.2
    refine ⟨?_, hsent⟩
    have hex : ¬ ∀ ch ∈ paraSplit s, ch.all isWs = true := by
      intro hall
      rw [(paraSplit_ws_iff s).mp hall] at h
      simp at h
    push_neg at hex
    obtain ⟨ch, hch, hnw⟩ := hex
    have htr : jsTrim ch ≠ [] := fun hh => hnw ((jsTrim_eq_nil_iff ch).mp hh)
    have hmem : jsTrim ch ∈
        ((paraSplit s).map jsTrim).filter (fun p => p.length > 0) := by
      apply List.mem_filter.mpr
      refine ⟨List.mem_map_of_mem _ hch, ?_⟩
      simpa [List.length_pos] using htr
    intro hnil
    have hlen : (splitIntoParagraphs s).length =
        (((paraSplit s).map jsTrim).filter (fun p => p.length > 0)).length := by
      simp [splitIntoParagraphs]
    rw [hnil] at hlen
    have hpos : 0 <
        (((paraSplit s).map jsTrim).filter (fun p => p.length > 0)).length :=
      List.length_pos.mpr (List.ne_nil_of_mem hmem)
    simp only [List.length_nil] at hlen
    omega

theorem C5_segmenter_total_witness :
    (((" \n ".toList).all isWs = true ∧ splitIntoParagraphs " \n ".toList = []) ∧
     (("Hi.".toList).all isWs = false ∧ splitIntoParagraphs "Hi.".toList ≠ [])) :=
  ⟨⟨by decide, (C5_segmenter_total (" \n ".toList)).1 (by decide)⟩,
   ⟨by decide, ((C5_segmenter_total ("Hi.".toList)).2 (by decide)).1⟩⟩

/-- C6 (counterexample): ignoring whitespace only, concatenating the
sentences of a paragraph does **not** always reproduce its trimmed text.
For the single paragraph `"a. .! b"` the sentence splitter drops the
separator `".! "` because the chunk before it is whitespace-only, losing the
non-whitespace characters `.` and `!`. -/
theorem C6_roundtrip_cex :
    (splitIntoParagraphs ("a. .! b".toList)).map
        (fun p => (stripWs p.sentences.flatten, stripWs p.text)) =
      [("a.b".toList, "a..!b".toList)] ∧
    ∀ p ∈ splitIntoParagraphs ("a. .! b".toList),
      stripWs p.sentences.flatten ≠ stripWs p.text := by
  constructor
  · decide
  · decide

/-- C6 (amended): concatenating a paragraph's sentences reproduces its
trimmed source text up to whitespace **and** sentence-terminator characters
(`.`, `!`, `?`): no other character is lost or duplicated.  (Terminator runs
can be dropped when the fragment before them is whitespace-only, as the
counterexample shows.) -/
theorem C6_roundtrip_mod_terminators (s : List Char) :
    ∀ p ∈ splitIntoParagraphs s,
      stripWsPunct p.sentences.flatten = stripWsPunct p.text := by
  intro p hp
  unfold splitIntoParagraphs at hp
  rcases List.mem_map.mp hp with ⟨pair, hpair, rfl⟩
  exact stripWsPunct_splitIntoSentences pair.2

theorem C6_roundtrip_mod_terminators_witness :
    ({ number := 1, text := "Hi.".toList, sentences := ["Hi.".toList],
       wordCount := 1 } : Paragraph) ∈ splitIntoParagraphs ("Hi.".toList) ∧
    stripWsPunct (Paragraph.sentences
        { number := 1, text := "Hi.".toList, sentences := ["Hi.".toList],
          wordCount := 1 }).flatten =
      stripWsPunct (Paragraph.text
        { number := 1, text := "Hi.".toList, sentences := ["Hi.".toList],
          wordCount := 1 }) :=
  ⟨by decide, C6_roundtrip_mod_terminators ("Hi.".toList)
    { number := 1, text := "Hi.".toList, sentences := ["Hi.".toList],
      wordCount := 1 } (by decide)⟩

/-- C9: segmentation of the spec's example text yields exactly 2 paragraphs;
paragraph 1 has exactly the sentences "Hello world.", "This is a test!",
"Really?" in that order, and paragraph 2 exactly 1 sentence. -/
theorem C9_example_segmentation :
    (splitIntoParagraphs
        ("Hello world. This is a test! Really?\n\nSecond paragraph here.".toList)).length
      = 2 ∧
    (splitIntoParagraphs
        ("Hello world. This is a test! Really?\n\nSecond paragraph here.".toList)).map
        (fun p => p.sentences) =
      [["Hello world.".toList, "This is a test!".toList, "Really?".toList],
       ["Second paragraph here.".toList]] := by
  constructor
  · decide
  · decide

/-- C8 (counterexample to the claim as universally stated): text of exactly
100,000 characters is **not** always accepted — 100,000 whitespace characters
fail the emptiness check, which runs before the length checks. -/
theorem C8_hundred_thousand_ws_rejected :
    validateDocument (List.replicate 100000 ' ') = some ValidationError.emptyDoc := by
  have hall : (List.replicate 100000 ' ').all isWs = true := by
    rw [List.all_eq_true]
    intro a ha
    rw [(List.mem_replicate.mp ha).2]
    decide
  have ht : jsTrim (List.replicate 100000 ' ') = [] :=
    (jsTrim_eq_nil_iff _).mpr hall
  have hc : (List.replicate 100000 ' ').length = 0 ∨
      (jsTrim (List.replicate 100000 ' ')).length = 0 := Or.inr (by rw [ht]; rfl)
  unfold validateDocument
  rw [if_pos hc]

/-- C8 (amended): the validation boundary sits exactly at 100,000 characters
for text that is not all-whitespace: such text of length 100,000 is accepted,
any text of length 100,001 is rejected, any text shorter than 10 characters
is rejected, and the UI ingestion layer (`processFile`) additionally rejects
text whose trimmed length is below 100. -/
theorem C8_validation_limits (text : List Char) :
    (text.length = 100000 → jsTrim text ≠ [] → validateDocument text = none) ∧
    (text.length = 100001 → (validateDocument text).isSome = true) ∧
    (text.length < 10 → (validateDocument text).isSome = true) ∧
    ((jsTrim text).length < 100 → processFileAccepts text = false) := by
  refine ⟨?_, ?_, ?_, ?_⟩
  · intro h1 h2
    have hc1 : ¬(text.length = 0 ∨ (jsTrim text).length = 0) := by
      rintro (h | h)
      · omega
      · exact h2 (List.length_eq_zero.mp h)
    have hc2 : ¬(text.length > MAX_TEXT_LENGTH) := by
      simp only [MAX_TEXT_LENGTH]; omega
    have hc3 : ¬(text.length < 10) := by omega
    unfold validateDocument
    rw [if_neg hc1, if_neg hc2, if_neg hc3]
  · intro h1
    unfold validateDocument
    by_cases hc1 : text.length = 0 ∨ (jsTrim text).length = 0
    · rw [if_pos hc1]; rfl
    · rw [if_neg hc1, if_pos (show text.length > MAX_TEXT_LENGTH by
        simp only [MAX_TEXT_LENGTH]; omega)]
      rfl
  · intro h1
    unfold validateDocument
    by_cases hc1 : text.length = 0 ∨ (jsTrim text).length = 0
    · rw [if_pos hc1]; rfl
    · rw [if_neg hc1, if_neg (show ¬(text.length > MAX_TEXT_LENGTH) by
        simp only [MAX_TEXT_LENGTH]; omega), if_pos h1]
      rfl
  · intro h1
    simp [processFileAccepts, h1]

theorem C8_validation_limits_witness :
    validateDocument (List.replicate 100000 'a') = none ∧
    (validateDocument (List.replicate 100001 'a')).isSome = true ∧
    (validateDocument ("hi".toList)).isSome = true ∧
    processFileAccepts ("short".toList) = false := by
  refine ⟨?_, ?_, ?_, ?_⟩
  · apply (C8_validation_limits _).1
    · exact List.length_replicate 100000 'a'
    · intro h
      have hall := (jsTrim_eq_nil_iff _).mp h
      have hmem : ('a' : Char) ∈ List.replicate 100000 'a' :=
        List.mem_replicate.mpr ⟨by norm_num, rfl⟩
      have := List.all_eq_true.mp hall _ hmem
      exact absurd this (by decide)
  · exact (C8_validation_limits _).2.1 (List.length_replicate 100001 'a')
  · exact (C8_validation_limits _).2.2.1 (by decide)
  · exact (C8_validation_limits _).2.2.2 (by decide)

/-! ### C10: language detection -/

theorem mem_insertDesc {x y : List Char × Nat} :
    ∀ {l : List (List Char × Nat)}, y ∈ insertDesc x l → y = x ∨ y ∈ l := by
  intro l
  induction l with
  | nil => intro h; simp [insertDesc] at h; simp [h]
  | cons z zs ih =>
    intro h
    simp only [insertDesc] at h
    by_cases hc : z.2 > x.2
    · rw [if_pos hc] at h
      rcases List.mem_cons.mp h with h1 | h2
      · right; simp [h1]
      · rcases ih h2 with h3 | h3
        · left; exact h3
        · right; simp [h3]
    · rw [if_neg hc] at h
      rcases List.mem_cons.mp h with h1 | h2
      · left; exact h1
      · right; exact h2

theorem mem_sortDesc {y : List Char × Nat} :
    ∀ {l : List (List Char × Nat)}, y ∈ sortDesc l → y ∈ l := by
  intro l
  induction l with
  | nil => intro h; simp [sortDesc] at h
  | cons x xs ih =>
    intro h
    simp only [sortDesc] at h
    rcases mem_insertDesc h with h1 | h2
    · simp [h1]
    · simp [ih h2]

theorem insertDesc_ne_nil (x : List Char × Nat) :
    ∀ (l : List (List Char × Nat)), insertDesc x l ≠ [] := by
  intro l
  cases l with
  | nil => simp [insertDesc]
  | cons z zs =>
    simp only [insertDesc]
    by_cases hc : z.2 > x.2
    · simp [hc]
    · simp [hc]

/-- C10: `detectLanguage` is total (it is a Lean function) and always
returns one of the four tags `nl-NL`, `en-US`, `de-DE`, `fr-FR`; when all
four keyword scores coincide (in particular for the empty string, which
contains no keyword), the stable descending sort keeps insertion order and
the first table entry `nl-NL` wins. -/
theorem C10_detect_language_total (text : List Char) :
    (detectLanguage text = "nl-NL".toList ∨ detectLanguage text = "en-US".toList ∨
     detectLanguage text = "de-DE".toList ∨ detectLanguage text = "fr-FR".toList) ∧
    (keywordScore englishWords text = keywordScore dutchWords text →
     keywordScore germanWords text = keywordScore dutchWords text →
     keywordScore frenchWords text = keywordScore dutchWords text →
     detectLanguage text = "nl-NL".toList) := by
  constructor
  · unfold detectLanguage
    cases hs : sortDesc
        [("nl-NL".toList, keywordScore dutchWords text),
         ("en-US".toList, keywordScore englishWords text),
         ("de-DE".toList, keywordScore germanWords text),
         ("fr-FR".toList, keywordScore frenchWords text)] with
    | nil =>
      exfalso
      revert hs
      simp only [sortDesc]
      exact insertDesc_ne_nil _ _
    | cons hd tl =>
      have hmem : hd ∈ sortDesc
          [("nl-NL".toList, keywordScore dutchWords text),
           ("en-US".toList, keywordScore englishWords text),
           ("de-DE".toList, keywordScore germanWords text),
           ("fr-FR".toList, keywordScore frenchWords text)] := by
        rw [hs]; exact List.mem_cons_self _ _
      have hmem2 := mem_sortDesc hmem
      simp only [List.mem_cons, List.not_mem_nil, or_false] at hmem2
      rcases hmem2 with h | h | h | h <;>
        simp [pickTop, h]
  · intro h1 h2 h3
    unfold detectLanguage
    rw [h1, h2, h3]
    simp [sortDesc, insertDesc, pickTop, lt_self_iff_false]

theorem C10_detect_language_total_witness :
    (keywordScore englishWords [] = keywordScore dutchWords [] ∧
     keywordScore germanWords [] = keywordScore dutchWords [] ∧
     keywordScore frenchWords [] = keywordScore dutchWords []) ∧
    detectLanguage [] = "nl-NL".toList :=
  ⟨⟨by decide, by decide, by decide⟩,
   (C10_detect_language_total []).2 (by decide) (by decide) (by decide)⟩

/-! ### C7: stop is idempotent -/

/-- C7: `stopReading` from any state leaves the controller in the idle
(stopped) configuration — not playing, not paused, both indices `0`,
persisted position cleared — and a second invocation produces the identical
outcome (same state, same backend calls), changing nothing further.  It
raises no error: it is a total function (the modeled IndexedDB delete
succeeds whether or not a record exists). -/
theorem C7_stop_idempotent (st : CtrlState) :
    stopReading st = (stoppedState, [], [Emission.cancel]) ∧
    stopReading (stopReading st).1 = stopReading st ∧
    (stopReading st).1.isPlaying = false ∧
    (stopReading st).1.isPaused = false ∧
    (stopReading st).1.currentParagraphIndex = 0 ∧
    (stopReading st).1.currentSentenceIndex = 0 ∧
    (stopReading st).1.savedPosition = none :=
  ⟨rfl, rfl, rfl, rfl, rfl, rfl, rfl⟩

/-! ### C4: skip clamps, and past the end completes without speaking -/

/-- C4: in a Playing session over a nonempty document, `skipParagraph`
cancels the current utterance; when the target `current + dir` stays below
the paragraph count, it sets the paragraph index to the target clamped into
`[0, length-1]` (`Int.toNat` sends the negative target of a skip backward at
paragraph 0 to 0) and resets the sentence index; when the target reaches or
exceeds the paragraph count it runs `stopReading` — ending playback exactly
as natural completion does (the code has a single stopped configuration
serving as both `Idle` and `Completed`) — schedules nothing, and issues no
speak request. -/
theorem C4_skip_clamps_or_completes (paras : List Paragraph) (st : CtrlState)
    (dir : Int) (hplay : st.isPlaying = true) (hn : 0 < paras.length)
    (hdir : dir = 1 ∨ dir = -1) :
    Emission.cancel ∈ (skipParagraph paras st dir).2.2 ∧
    ((st.currentParagraphIndex : Int) + dir ≥ (paras.length : Int) →
      skipParagraph paras st dir =
        (stoppedState, [], [Emission.cancel, Emission.cancel])) ∧
    ((st.currentParagraphIndex : Int) + dir < (paras.length : Int) →
      skipParagraph paras st dir =
        ({ st with
            currentParagraphIndex := ((st.currentParagraphIndex : Int) + dir).toNat,
            currentSentenceIndex := 0 },
         [NTask.delayedSpeak], [Emission.cancel]) ∧
      ((st.currentParagraphIndex : Int) + dir).toNat < paras.length) := by
  have hguard : ¬((!st.isPlaying || paras.length = 0) = true) := by
    simp only [hplay, Bool.not_true, Bool.false_or]
    intro hh
    simp only [decide_eq_true_eq] at hh
    omega
  have hover : ((st.currentParagraphIndex : Int) + dir ≥ (paras.length : Int) →
      skipParagraph paras st dir =
        (stoppedState, [], [Emission.cancel, Emission.cancel])) := by
    intro hge
    unfold skipParagraph
    rw [if_neg hguard, if_neg (show ¬((st.currentParagraphIndex : Int) + dir < 0)
      by omega), if_pos hge]
    rfl
  have hunder : ((st.currentParagraphIndex : Int) + dir < (paras.length : Int) →
      skipParagraph paras st dir =
        ({ st with
            currentParagraphIndex := ((st.currentParagraphIndex : Int) + dir).toNat,
            currentSentenceIndex := 0 },
         [NTask.delayedSpeak], [Emission.cancel]) ∧
      ((st.currentParagraphIndex : Int) + dir).toNat < paras.length) := by
    intro hlt
    constructor
    · unfold skipParagraph
      rw [if_neg hguard]
      by_cases hneg : (st.currentParagraphIndex : Int) + dir < 0
      · rw [if_pos hneg]
        have : ((st.currentParagraphIndex : Int) + dir).toNat = 0 := by omega
        rw [this]
      · rw [if_neg hneg, if_neg (show ¬((st.currentParagraphIndex : Int) + dir ≥
          (paras.length : Int)) by omega)]
    · omega
  refine ⟨?_, hover, hunder⟩
  by_cases hc : (st.currentParagraphIndex : Int) + dir ≥ (paras.length : Int)
  · rw [hover hc]; simp
  · rw [(hunder (by omega)).1]; simp

theorem C4_skip_clamps_or_completes_witness :
    (1 : Int) + 1 ≥ (((splitIntoParagraphs ("A.\n\nB.".toList)).length : Nat) : Int) ∧
    skipParagraph (splitIntoParagraphs ("A.\n\nB.".toList))
        { isPlaying := true, isPaused := false, currentParagraphIndex := 1,
          currentSentenceIndex := 0, savedPosition := none } 1 =
      (stoppedState, [], [Emission.cancel, Emission.cancel]) :=
  ⟨by decide,
   (C4_skip_clamps_or_completes (splitIntoParagraphs ("A.\n\nB.".toList))
      { isPlaying := true, isPaused := false, currentParagraphIndex := 1,
        currentSentenceIndex := 0, savedPosition := none } 1 rfl (by decide)
      (Or.inl rfl)).2.1 (by decide)⟩

/-! ### C3: per-sentence backend error -/

/-- C3 (counterexample): in the browser path a backend error on one sentence
does **not** continue with the next sentence of the same paragraph.  On the
document "A. B.\n\nC." (paragraph 0 has 2 sentences), an error on sentence
(0,0) resolves the paragraph promise: the trace shows the next speak request
is paragraph 1 sentence 0 ("C."), and sentence (0,1) ("B.") is never
requested. -/
theorem C3_error_skips_rest_of_paragraph_cex :
    sentCount (splitIntoParagraphs ("A. B.\n\nC.".toList)) 0 = 2 ∧
    (runActs (splitIntoParagraphs ("A. B.\n\nC.".toList)) initConfig
        [Act.play, Act.fire 0 UtterEnv.ended, Act.fire 0 UtterEnv.errored]).trace =
      [Emission.cancel, Emission.speak 0 0 ("A.".toList), Emission.errorLog,
       Emission.speak 1 0 ("C.".toList)] ∧
    Emission.speak 0 1 ("B.".toList) ∉
      (runActs (splitIntoParagraphs ("A. B.\n\nC.".toList)) initConfig
        [Act.play, Act.fire 0 UtterEnv.ended, Act.fire 0 UtterEnv.errored]).trace := by
  refine ⟨by decide, by decide, by decide⟩

/-- C3 (amended): in the browser path a backend error on a sentence is
logged (`console.error`) and narration is **not** aborted: the paragraph
promise resolves and the controller immediately proceeds with the **next
paragraph** (skipping the remaining sentences of the current one).  While
playing and not paused, with a following nonempty paragraph, the stale-free
error delivery produces exactly the error log followed by the speak request
for sentence 0 of paragraph `p + 1`.  (The Flutter path, by contrast,
continues with the next sentence of the same paragraph.) -/
theorem C3_error_continues_next_paragraph (paras : List Paragraph)
    (st : CtrlState) (p s : Nat) (hplay : st.isPlaying = true)
    (hpause : st.isPaused = false) (hlt : p + 1 < paras.length)
    (hs : sentCount paras (p + 1) ≠ 0) :
    fireUtter paras st p s UtterEnv.errored =
      ({ st with currentParagraphIndex := p + 1 }, [NTask.utter (p + 1) 0],
       [Emission.errorLog,
        Emission.speak (p + 1) 0 (sentText paras (p + 1) 0)]) := by
  have h1 : ¬(paras.length ≤ p + 1) := by omega
  have hguard2 : (!st.isPlaying || st.isPaused) = false := by simp [hplay, hpause]
  have hsp : speakParagraph paras st (p + 1) =
      ({ st with currentParagraphIndex := p + 1 }, [NTask.utter (p + 1) 0],
       [Emission.speak (p + 1) 0 (sentText paras (p + 1) 0)]) := by
    rw [speakParagraph_eq paras st (p + 1), if_neg h1,
      if_neg (by rw [hguard2]; exact Bool.false_ne_true)]
    simp only [if_neg hs]
  simp [fireUtter, contAfter, hplay, hpause, hsp]

theorem C3_error_continues_next_paragraph_witness :
    0 + 1 < (splitIntoParagraphs ("A. B.\n\nC.".toList)).length ∧
    fireUtter (splitIntoParagraphs ("A. B.\n\nC.".toList))
        { isPlaying := true, isPaused := false, currentParagraphIndex := 0,
          currentSentenceIndex := 0, savedPosition := none } 0 0
        UtterEnv.errored =
      ({ isPlaying := true, isPaused := false, currentParagraphIndex := 1,
         currentSentenceIndex := 0, savedPosition := none },
       [NTask.utter 1 0],
       [Emission.errorLog, Emission.speak 1 0
          (sentText (splitIntoParagraphs ("A. B.\n\nC.".toList)) 1 0)]) :=
  ⟨by decide,
   C3_error_continues_next_paragraph (splitIntoParagraphs ("A. B.\n\nC.".toList))
      { isPlaying := true, isPaused := false, currentParagraphIndex := 0,
        currentSentenceIndex := 0, savedPosition := none } 0 0 rfl rfl
      (by decide) (by decide)⟩

/-! ### C2: stale backend callbacks -/

/-- C2 (counterexample): there is **no** request-generation counter, and a
stale callback of a superseded speak request can mutate the paragraph index
and trigger a new speak request.  On "A.\n\nB.\n\nC.": play issues the
utterance for (0,0); two skips move the controller to paragraph 2 (the
cancels do not unregister the utterance callback); the stale error callback
of utterance (0,0) then resumes the superseded recursion at paragraph 1 —
overwriting `currentParagraphIndex` from 2 back to 1 and issuing a new speak
request for (1,0). -/
theorem C2_stale_callback_mutates_state_cex :
    (runActs (splitIntoParagraphs ("A.\n\nB.\n\nC.".toList)) initConfig
        [Act.play, Act.fire 0 UtterEnv.ended, Act.skip 1, Act.skip 1]).st.currentParagraphIndex
      = 2 ∧
    (runActs (splitIntoParagraphs ("A.\n\nB.\n\nC.".toList)) initConfig
        [Act.play, Act.fire 0 UtterEnv.ended, Act.skip 1, Act.skip 1,
         Act.fire 0 UtterEnv.errored]).st.currentParagraphIndex = 1 ∧
    (runActs (splitIntoParagraphs ("A.\n\nB.\n\nC.".toList)) initConfig
        [Act.play, Act.fire 0 UtterEnv.ended, Act.skip 1, Act.skip 1,
         Act.fire 0 UtterEnv.errored]).trace =
      (runActs (splitIntoParagraphs ("A.\n\nB.\n\nC.".toList)) initConfig
        [Act.play, Act.fire 0 UtterEnv.ended, Act.skip 1, Act.skip 1]).trace ++
      [Emission.errorLog, Emission.speak 1 0 ("B.".toList)] := by
  refine ⟨by decide, by decide, by decide⟩

/-- C2 (amended): the only guard against stale callbacks is the
`!isPlaying || isPaused` check: a stale utterance completion or error
delivered while the controller is **not** playing or is paused leaves the
state unchanged and triggers no speak request.  After a skip the controller
is still playing, and (as the counterexample shows) a stale callback can
corrupt the paragraph index and issue a speak request: no generation
counter exists. -/
theorem C2_stale_ignored_when_not_playing (paras : List Paragraph)
    (st : CtrlState) (p s : Nat) (env : UtterEnv)
    (h : st.isPlaying = false ∨ st.isPaused = true) :
    (fireUtter paras st p s env).1 = st ∧
    ∀ q r t, Emission.speak q r t ∉ (fireUtter paras st p s env).2.2 := by
  have hc : (st.isPlaying && !st.isPaused) = false := by
    rcases h with h | h <;> simp [h]
  cases env with
  | ended => exact ⟨rfl, by intro q r t; simp [fireUtter]⟩
  | errored =>
    constructor
    · simp [fireUtter, contAfter, hc]
    · intro q r t
      simp [fireUtter, contAfter, hc]

theorem C2_stale_ignored_when_not_playing_witness :
    stoppedState.isPlaying = false ∧
    (fireUtter (splitIntoParagraphs ("A.\n\nB.".toList)) stoppedState 0 0
        UtterEnv.errored).1 = stoppedState ∧
    Emission.speak 1 0 ("B.".toList) ∉
      (fireUtter (splitIntoParagraphs ("A.\n\nB.".toList)) stoppedState 0 0
        UtterEnv.errored).2.2 :=
  ⟨rfl,
   (C2_stale_ignored_when_not_playing (splitIntoParagraphs ("A.\n\nB.".toList))
      stoppedState 0 0 UtterEnv.errored (Or.inl rfl)).1,
   (C2_stale_ignored_when_not_playing (splitIntoParagraphs ("A.\n\nB.".toList))
      stoppedState 0 0 UtterEnv.errored (Or.inl rfl)).2 1 0 ("B.".toList)⟩

/-! ### C1: resume after a mid-paragraph pause -/

/-- C1 (code evaluation at the failing input): pause-then-resume does
**not** continue from the snapshotted position.  On "A. B.\n\nC. D." the
controller plays paragraph 0 (sentences (0,0), (0,1)) and starts paragraph 1
(sentence (1,0)); pausing snapshots `currentParagraphIndex = 1` (persisted as
`savedPosition = some 1`) with `currentSentenceIndex = 0`.  Resuming clears
`isPaused` **before** calling `playDocument`, so `playDocument`'s
`if (!isPaused)` reset fires: both indices return to 0 and the next backend
speak request is sentence (0,0) ("A.") — the start of the document — not the
saved position (1,0).  This contradicts the code's own comments ("Continue
from current paragraph", "Track sentence position for better pause/resume"):
the spec describes the intent, the code has the bug. -/
theorem C1_resume_restarts_from_start :
    (runActs (splitIntoParagraphs ("A. B.\n\nC. D.".toList)) initConfig
        [Act.play, Act.fire 0 UtterEnv.ended, Act.fire 0 UtterEnv.ended,
         Act.fire 0 UtterEnv.ended, Act.fire 0 UtterEnv.ended,
         Act.fire 0 UtterEnv.ended, Act.toggle]).st =
      { isPlaying := true, isPaused := true, currentParagraphIndex := 1,
        currentSentenceIndex := 0, savedPosition := some 1 } ∧
    (runActs (splitIntoParagraphs ("A. B.\n\nC. D.".toList)) initConfig
        [Act.play, Act.fire 0 UtterEnv.ended, Act.fire 0 UtterEnv.ended,
         Act.fire 0 UtterEnv.ended, Act.fire 0 UtterEnv.ended,
         Act.fire 0 UtterEnv.ended, Act.toggle, Act.toggle,
         Act.fire 1 UtterEnv.ended]).trace =
      [Emission.cancel, Emission.speak 0 0 ("A.".toList),
       Emission.speak 0 1 ("B.".toList), Emission.speak 1 0 ("C.".toList),
       Emission.cancel, Emission.speak 0 0 ("A.".toList)] ∧
    (runActs (splitIntoParagraphs ("A. B.\n\nC. D.".toList)) initConfig
        [Act.play, Act.fire 0 UtterEnv.ended, Act.fire 0 UtterEnv.ended,
         Act.fire 0 UtterEnv.ended, Act.fire 0 UtterEnv.ended,
         Act.fire 0 UtterEnv.ended, Act.toggle, Act.toggle,
         Act.fire 1 UtterEnv.ended]).st.currentParagraphIndex = 0 := by
  refine ⟨by decide, by decide, by decide⟩
